import Mathlib

/-!
Shallow embedding of the catabalancer core (catalyst balancer) from the
livepeer/dms-api repository, together with theorems checking the
natural-language specification against it.

Conventions of the embedding:
* Go strings are represented as `List Char` (`GoStr`); the helpers
  `strJoin`, `strSplitGo` and `strCut` mirror `strings.Join`,
  `strings.Split` and `strings.Cut` for single-character separators
  (the only way the code uses them).
* `time.Time` values and `time.Duration` values are integers
  (nanoseconds); `time.Since(t)` at instant `now` is `now - t`.
* Go float64 percentages and coordinates are rationals; the constants
  compared against (50, 85) are exactly representable in float64, so the
  comparisons agree.
* Go maps are association lists with an overwriting insert; iteration
  order of a Go map is arbitrary, which the list order models (theorems
  that would depend on the order universally quantify over it or add the
  hypotheses that make the result order-independent).
* Fallible operations return `Except GoStr`; the store boundary
  (`database/sql` rows, JSON unmarshalling) enters as data: a row either
  failed to scan, failed to unmarshal, or carries a decoded event.
-/

namespace Catabalancer

/-- Go strings, as lists of characters. -/
abbrev GoStr := List Char

/-- Embed a Lean string literal as a `GoStr`. -/
def str (s : String) : GoStr := s.toList

/-- `strings.Join` for a single-character separator. -/
def strJoin (sep : Char) : List GoStr → GoStr
  | [] => []
  | x :: xs =>
    match xs with
    | [] => x
    | _ :: _ => x ++ sep :: strJoin sep xs

/-- `strings.Split` for a single-character separator: Go semantics, so
splitting the empty string yields `[""]`, and the result is never the
empty list. -/
def strSplitGo (sep : Char) : GoStr → List GoStr
  | [] => [[]]
  | c :: rest =>
    match strSplitGo sep rest with
    | [] => []
    | h :: t => if c = sep then [] :: h :: t else (c :: h) :: t

/-- `strings.Cut` for a single-character separator: splits around the
first occurrence, returning `(before, after, found)`; when the separator
is absent it returns `(s, "", false)`. -/
def strCut (sep : Char) : GoStr → GoStr × GoStr × Bool
  | [] => ([], [], false)
  | c :: rest =>
    if c = sep then ([], rest, true)
    else
      let r := strCut sep rest
      (c :: r.1, r.2.1, r.2.2)

theorem strSplitGo_ne_nil (sep : Char) (s : GoStr) : strSplitGo sep s ≠ [] := by
  induction s with
  | nil => simp [strSplitGo]
  | cons c rest ih =>
    simp only [strSplitGo]
    cases h : strSplitGo sep rest with
    | nil => exact absurd h ih
    | cons hd tl =>
      by_cases hc : c = sep <;> simp [hc]

theorem strSplitGo_no_sep {sep : Char} {s : GoStr} (h : sep ∉ s) :
    strSplitGo sep s = [s] := by
  induction s with
  | nil => rfl
  | cons c rest ih =>
    have hc : c ≠ sep := fun hcs => h (hcs ▸ List.mem_cons_self c rest)
    have hrest : sep ∉ rest := fun hm => h (List.mem_cons_of_mem c hm)
    simp only [strSplitGo, ih hrest]
    simp [hc]

theorem strSplitGo_append {sep : Char} {x r : GoStr} (h : sep ∉ x) :
    strSplitGo sep (x ++ sep :: r) = x :: strSplitGo sep r := by
  induction x with
  | nil =>
    simp only [List.nil_append, strSplitGo]
    cases hr : strSplitGo sep r with
    | nil => exact absurd hr (strSplitGo_ne_nil sep r)
    | cons hd tl => simp
  | cons c x ih =>
    have hc : c ≠ sep := fun hcs => h (hcs ▸ List.mem_cons_self c x)
    have hx : sep ∉ x := fun hm => h (List.mem_cons_of_mem c hm)
    rw [List.cons_append]
    simp only [strSplitGo]
    rw [ih hx]
    simp [hc]

theorem strJoin_not_mem {sep c : Char} {l : List GoStr} (hc : c ≠ sep)
    (h : ∀ x ∈ l, c ∉ x) : c ∉ strJoin sep l := by
  induction l with
  | nil => simp [strJoin]
  | cons x xs ih =>
    cases xs with
    | nil => exact h x (List.mem_cons_self x [])
    | cons y ys =>
      simp only [strJoin, List.mem_append, List.mem_cons]
      push_neg
      refine ⟨h x (List.mem_cons_self x _), hc, ?_⟩
      have := ih (fun z hz => h z (List.mem_cons_of_mem x hz))
      simpa [strJoin] using this

theorem strJoin_eq_nil_iff (sep : Char) (l : List GoStr) :
    strJoin sep l = [] ↔ l = [] ∨ l = [[]] := by
  match l with
  | [] => simp [strJoin]
  | [x] => simp [strJoin]
  | x :: y :: t => simp [strJoin]

theorem strSplitGo_strJoin {sep : Char} {l : List GoStr} (hne : l ≠ [])
    (h : ∀ x ∈ l, sep ∉ x) : strSplitGo sep (strJoin sep l) = l := by
  induction l with
  | nil => exact absurd rfl hne
  | cons x xs ih =>
    cases xs with
    | nil => exact strSplitGo_no_sep (h x (List.mem_cons_self x []))
    | cons y ys =>
      have hx : sep ∉ x := h x (List.mem_cons_self x _)
      simp only [strJoin]
      rw [strSplitGo_append hx]
      have := ih (by simp) (fun z hz => h z (List.mem_cons_of_mem x hz))
      simp only [strJoin] at this
      rw [this]

theorem strCut_append {sep : Char} {u v : GoStr} (h : sep ∉ u) :
    strCut sep (u ++ sep :: v) = (u, v, true) := by
  induction u with
  | nil => simp [strCut]
  | cons c u ih =>
    have hc : c ≠ sep := fun hcs => h (hcs ▸ List.mem_cons_self c u)
    have hu : sep ∉ u := fun hm => h (List.mem_cons_of_mem c hm)
    simp only [List.cons_append, strCut, hc, if_false, List.append_eq]
    rw [ih hu]

theorem strCut_not_found {sep : Char} {s : GoStr} (h : sep ∉ s) :
    strCut sep s = (s, [], false) := by
  induction s with
  | nil => rfl
  | cons c rest ih =>
    have hc : c ≠ sep := fun hcs => h (hcs ▸ List.mem_cons_self c rest)
    have hrest : sep ∉ rest := fun hm => h (List.mem_cons_of_mem c hm)
    simp only [strCut, hc, if_false]
    rw [ih hrest]

/-- Per-node resource snapshot (struct NodeMetrics). Percentages and
coordinates are rationals standing for float64; Timestamp is an integer
instant. -/
structure NodeMetrics where
  CPUUsagePercentage : ℚ
  RAMUsagePercentage : ℚ
  BandwidthUsagePercentage : ℚ
  LoadAvg : ℚ
  GeoLatitude : ℚ
  GeoLongitude : ℚ
  Timestamp : ℤ
deriving DecidableEq

/-- A cluster node (struct Node): name plus DTSC ingest address. -/
structure Node where
  Name : GoStr
  DTSC : GoStr
deriving DecidableEq

/-- One stream entry (struct Stream). -/
structure Stream where
  ID : GoStr
  PlaybackID : GoStr
  Timestamp : ℤ
deriving DecidableEq

/-- Go maps keyed by string, as association lists; iteration order of the
list models the arbitrary iteration order of a Go map. -/
abbrev AssocMap (α : Type) := List (GoStr × α)

/-- Go map assignment: the new binding wins over any previous binding of
the same key. -/
def mInsert {α : Type} (k : GoStr) (v : α) (m : AssocMap α) : AssocMap α :=
  (k, v) :: m.filter (fun p => decide (p.1 ≠ k))

/-- Go map lookup returning an optional value. -/
def mGet? {α : Type} : AssocMap α → GoStr → Option α
  | [], _ => none
  | p :: m, k => if p.1 = k then some p.2 else mGet? m k

/-- Go map lookup with the zero value as default (map[k] on a missing
key), for inner stream maps. -/
def mGetStreams (m : AssocMap (AssocMap Stream)) (k : GoStr) : AssocMap Stream :=
  (mGet? m k).getD []

theorem mGet?_mInsert_self {α : Type} (k : GoStr) (v : α) (m : AssocMap α) :
    mGet? (mInsert k v m) k = some v := by
  simp [mGet?, mInsert]

theorem mGet?_mInsert_ne {α : Type} {k k' : GoStr} (v : α) (m : AssocMap α)
    (h : k' ≠ k) : mGet? (mInsert k v m) k' = mGet? m k' := by
  have hk : ¬ k = k' := fun hkk => h hkk.symm
  simp only [mInsert, mGet?, if_neg hk]
  induction m with
  | nil => rfl
  | cons p m ih =>
    simp only [decide_not] at ih
    by_cases hp : p.1 = k
    · have hpk : ¬ p.1 = k' := fun hq => h (hq.symm.trans hp)
      simp [List.filter_cons, hp, hpk, hk, mGet?, ih]
    · by_cases hq : p.1 = k'
      · simp [List.filter_cons, hp, hq, h, mGet?]
      · simp [List.filter_cons, hp, hq, h, mGet?, ih]

/-- The wire record a node publishes (struct NodeUpdateEvent). -/
structure NodeUpdateEvent where
  Resource : GoStr
  NodeID : GoStr
  Metrics : NodeMetrics
  Streams : GoStr
deriving DecidableEq

/-- SetStreams: encode the two stream-ID lists into the single compact
string, joining each list with a pipe and separating the lists with a
tilde. -/
def NodeUpdateEvent.SetStreams (n : NodeUpdateEvent)
    (streamIDs ingestStreamIDs : List GoStr) : NodeUpdateEvent :=
  { n with Streams := strJoin '|' streamIDs ++ '~' :: strJoin '|' ingestStreamIDs }

/-- GetStreams: decode the playback-stream list (the part before the
first tilde); an empty segment decodes to the empty list. -/
def NodeUpdateEvent.GetStreams (n : NodeUpdateEvent) : List GoStr :=
  let before := (strCut '~' n.Streams).1
  if 0 < before.length then strSplitGo '|' before else []

/-- GetIngestStreams: decode the ingest-stream list (the part after the
first tilde); an empty segment decodes to the empty list. -/
def NodeUpdateEvent.GetIngestStreams (n : NodeUpdateEvent) : List GoStr :=
  let after := (strCut '~' n.Streams).2.1
  if 0 < after.length then strSplitGo '|' after else []

/-- A concrete all-zero metrics record, for concrete instances. -/
def emptyMetrics : NodeMetrics := ⟨0, 0, 0, 0, 0, 0, 0⟩

/-- A concrete empty event, for concrete instances. -/
def emptyEvent : NodeUpdateEvent := ⟨[], [], emptyMetrics, []⟩

/-- C1 counterexample: the singleton list holding the empty string
contains neither separator character, yet encoding it and decoding gives
the empty list back, so the round trip is not the identity on it. -/
theorem C1_counterexample :
    (∀ x ∈ ([[]] : List GoStr), ('|') ∉ x ∧ ('~') ∉ x) ∧
    (NodeUpdateEvent.SetStreams emptyEvent [[]] []).GetStreams ≠ [[]] := by
  decide

/-- C1 (amended): for stream-ID lists whose elements contain neither
separator character, and neither of which is the singleton list holding
the empty string, decoding inverts encoding, the empty lists included:
GetStreams (SetStreams a b) = a and GetIngestStreams (SetStreams a b) = b. -/
theorem C1_roundtrip (e : NodeUpdateEvent) (a b : List GoStr)
    (ha : ∀ x ∈ a, ('|') ∉ x ∧ ('~') ∉ x)
    (hb : ∀ x ∈ b, ('|') ∉ x ∧ ('~') ∉ x)
    (ha1 : a ≠ [[]]) (hb1 : b ≠ [[]]) :
    (NodeUpdateEvent.SetStreams e a b).GetStreams = a ∧
    (NodeUpdateEvent.SetStreams e a b).GetIngestStreams = b := by
  have hja : ('~') ∉ strJoin '|' a :=
    strJoin_not_mem (by decide) (fun x hx => (ha x hx).2)
  have hstreams : (NodeUpdateEvent.SetStreams e a b).Streams
      = strJoin '|' a ++ '~' :: strJoin '|' b := rfl
  have hcut : strCut '~' ((NodeUpdateEvent.SetStreams e a b).Streams)
      = (strJoin '|' a, strJoin '|' b, true) := by
    rw [hstreams]; exact strCut_append hja
  constructor
  · simp only [NodeUpdateEvent.GetStreams, hcut]
    by_cases hA : a = []
    · subst hA; simp [strJoin]
    · have hjoin : strJoin '|' a ≠ [] := by
        intro h0
        rcases (strJoin_eq_nil_iff '|' a).mp h0 with h | h
        · exact hA h
        · exact ha1 h
      rw [if_pos (List.length_pos.mpr hjoin)]
      exact strSplitGo_strJoin hA (fun x hx => (ha x hx).1)
  · simp only [NodeUpdateEvent.GetIngestStreams, hcut]
    by_cases hB : b = []
    · subst hB; simp [strJoin]
    · have hjoin : strJoin '|' b ≠ [] := by
        intro h0
        rcases (strJoin_eq_nil_iff '|' b).mp h0 with h | h
        · exact hB h
        · exact hb1 h
      rw [if_pos (List.length_pos.mpr hjoin)]
      exact strSplitGo_strJoin hB (fun x hx => (hb x hx).1)

/-- C1 witness: the amended round trip evaluated at two concrete lists. -/
theorem C1_roundtrip_witness :
    (NodeUpdateEvent.SetStreams emptyEvent
        ["one".toList, "two".toList] ["video+abc".toList]).GetStreams
      = ["one".toList, "two".toList] ∧
    (NodeUpdateEvent.SetStreams emptyEvent
        ["one".toList, "two".toList] ["video+abc".toList]).GetIngestStreams
      = ["video+abc".toList] :=
  C1_roundtrip emptyEvent ["one".toList, "two".toList] ["video+abc".toList]
    (by decide) (by decide) (by decide) (by decide)

/-- A cluster member as delivered by the membership provider
(cluster.Member): a name and a tag map. -/
structure Member where
  Name : GoStr
  Tags : AssocMap GoStr
deriving DecidableEq

/-- Go map indexing on a tag map: a missing key yields the zero value,
the empty string. -/
def tagsGet (tags : AssocMap GoStr) (k : GoStr) : GoStr :=
  (mGet? tags k).getD []

/-- One row handed back by the node-stats store: the row scan can fail,
the JSON unmarshal of the scanned bytes can fail, or a decoded
NodeUpdateEvent comes out. This is the database/sql + encoding/json
boundary of RefreshNodes, represented as data. -/
inductive RowResult where
  | scanErr (e : GoStr)
  | unmarshalErr (e : GoStr)
  | ok (event : NodeUpdateEvent)
deriving DecidableEq

deriving instance DecidableEq for Except

/-- What the node-stats store returns for the query
SELECT stats FROM node_stats: either a query error, or the row list; a
late iteration error (rows.Err) can follow the rows. -/
structure DBContents where
  queryResult : Except GoStr (List RowResult)
  iterErr : Option GoStr
deriving DecidableEq

/-- The balancer state (struct CataBalancer). NodeStatsDB is the store
handle: none models a nil handle, otherwise the contents the query would
deliver at this instant. -/
structure CataBalancer where
  NodeName : GoStr
  Nodes : AssocMap Node
  metricTimeout : ℤ
  ingestStreamTimeout : ℤ
  NodeStatsDB : Option DBContents
deriving DecidableEq

/-- The loop body of UpdateMembers: skip members whose tag keyed node
differs from media, store the rest under their name with the dtsc tag as
address. -/
def updAux (latestNodes : AssocMap Node) (member : Member) : AssocMap Node :=
  if tagsGet member.Tags ("node".toList) ≠ ("media".toList) then latestNodes
  else
    mInsert member.Name
      ⟨member.Name, tagsGet member.Tags ("dtsc".toList)⟩ latestNodes

/-- UpdateMembers: rebuild the node registry from scratch out of the
member list, keeping only members whose tag keyed node equals media, and
storing each kept member under its name with its dtsc tag as address. -/
def UpdateMembers (c : CataBalancer) (members : List Member) : CataBalancer :=
  { c with Nodes := members.foldl updAux [] }

/-- isStale: time.Since(timestamp) >= stale, at instant now. -/
def isStale (timestamp stale now : ℤ) : Bool :=
  decide (stale ≤ now - timestamp)

/-- Per-node snapshot maps (struct stats), all keyed by node name. -/
structure stats where
  Streams : AssocMap (AssocMap Stream)
  IngestStreams : AssocMap (AssocMap Stream)
  NodeMetrics : AssocMap NodeMetrics
deriving DecidableEq

/-- The empty snapshot RefreshNodes starts from. -/
def emptyStats : stats := ⟨[], [], []⟩

/-- A candidate node with its request-local scores (struct ScoredNode);
the embedded Node and NodeMetrics appear as fields. -/
structure ScoredNode where
  Score : ℤ
  GeoScore : ℤ
  StreamScore : ℤ
  GeoDistance : ℚ
  Node : Node
  Streams : AssocMap Stream
  IngestStreams : AssocMap Stream
  NodeMetrics : NodeMetrics
deriving DecidableEq

/-- An all-zero ScoredNode, used only as the default value of a list
indexing that is always in bounds. -/
def emptyScoredNode : ScoredNode :=
  ⟨0, 0, 0, 0, ⟨[], []⟩, [], [], emptyMetrics⟩

/-- HasStream: presence check against the filtered stream snapshot. -/
def ScoredNode.HasStream (n : ScoredNode) (streamID : GoStr) : Bool :=
  (mGet? n.Streams streamID).isSome

/-- GetLoadScore: 0 if any of CPU, bandwidth or RAM usage is above 85,
else 1 if any is above 50, else 2. -/
def ScoredNode.GetLoadScore (n : ScoredNode) : ℤ :=
  if n.NodeMetrics.CPUUsagePercentage > 85 ∨ n.NodeMetrics.BandwidthUsagePercentage > 85
      ∨ n.NodeMetrics.RAMUsagePercentage > 85 then 0
  else if n.NodeMetrics.CPUUsagePercentage > 50 ∨ n.NodeMetrics.BandwidthUsagePercentage > 50
      ∨ n.NodeMetrics.RAMUsagePercentage > 50 then 1
  else 2

/-- createScoredNodes: walk the registry; skip nodes with no metrics or
stale metrics; copy over only the non-stale streams of each kept node. -/
def createScoredNodes (c : CataBalancer) (s : stats) (now : ℤ) : List ScoredNode :=
  c.Nodes.filterMap (fun p =>
    match mGet? s.NodeMetrics p.1 with
    | none => none
    | some metrics =>
      if isStale metrics.Timestamp c.metricTimeout now then none
      else
        some { Score := 0, GeoScore := 0, StreamScore := 0, GeoDistance := 0,
               Node := p.2,
               Streams := (mGetStreams s.Streams p.1).filter
                 (fun q => ! isStale q.2.Timestamp c.metricTimeout now),
               IngestStreams := [],
               NodeMetrics := metrics })

/-- getPlaybackID: strip an optional single prefix plus sign, keeping
the part after it; an ID that does not split in exactly two parts is
returned unchanged. -/
def getPlaybackID (streamID : GoStr) : GoStr :=
  match strSplitGo '+' streamID with
  | [_, p] => p
  | _ => streamID

/-- One stream-map assignment of the RefreshNodes row loop: store the
stream under the chosen key (its stripped playback ID for the playback
snapshot, its full ID for the ingest snapshot), stamped with the refresh
instant. -/
def insertKeyed (key : GoStr → GoStr) (now : ℤ) (m : AssocMap Stream)
    (streamID : GoStr) : AssocMap Stream :=
  mInsert (key streamID) ⟨streamID, getPlaybackID streamID, now⟩ m

/-- The per-event snapshot update inside the RefreshNodes row loop:
record the metrics, then insert every playback stream under its stripped
playback ID, then every ingest stream both under its stripped playback
ID (into the playback snapshot) and under its full ID (into the ingest
snapshot); every inserted entry is stamped with the refresh instant. -/
def applyEvent (now : ℤ) (event : NodeUpdateEvent) (s : stats) : stats :=
  let playback := event.GetStreams.foldl (insertKeyed getPlaybackID now) []
  let playbackBoth :=
    event.GetIngestStreams.foldl (insertKeyed getPlaybackID now) playback
  let ingest :=
    event.GetIngestStreams.foldl (insertKeyed (fun streamID => streamID) now) []
  { Streams := mInsert event.NodeID playbackBoth s.Streams
    IngestStreams := mInsert event.NodeID ingest s.IngestStreams
    NodeMetrics := mInsert event.NodeID event.Metrics s.NodeMetrics }

/-- The RefreshNodes row loop: scan and unmarshal failures abort with an
error; events with stale metrics are skipped; the rest update the
snapshot in row order. -/
def refreshLoop (metricTimeout now : ℤ) : List RowResult → stats → Except GoStr stats
  | [], s => .ok s
  | row :: rows, s =>
    match row with
    | .scanErr e => .error ("failed to scan node stats row: ".toList ++ e)
    | .unmarshalErr e => .error ("failed to unmarshal node update event: ".toList ++ e)
    | .ok event =>
      if isStale event.Metrics.Timestamp metricTimeout now then
        refreshLoop metricTimeout now rows s
      else
        refreshLoop metricTimeout now rows (applyEvent now event s)

/-- RefreshNodes: fail on a nil store handle, on a query error, on the
first bad row, or on a late iteration error; otherwise return the
snapshot built from all fresh rows. -/
def RefreshNodes (c : CataBalancer) (now : ℤ) : Except GoStr stats :=
  match c.NodeStatsDB with
  | none => .error ("node stats DB was nil".toList)
  | some db =>
    match db.queryResult with
    | .error e => .error ("failed to query node stats: ".toList ++ e)
    | .ok rows =>
      match refreshLoop c.metricTimeout now rows emptyStats with
      | .error e => .error e
      | .ok s =>
        match db.iterErr with
        | some e => .error e
        | none => .ok s

/-- The registry walk of MistUtilLoadSource: the first registered node
whose ingest snapshot holds the stream decides the answer; a stale hit
is the stale not-found error, a fresh hit is the dtsc address; no hit at
all is the plain not-found error. -/
def mistLookup (c : CataBalancer) (s : stats) (streamID : GoStr) (now : ℤ) :
    List (GoStr × Node) → Except GoStr GoStr
  | [] =>
    .error ("catabalancer no node found for ingest stream: ".toList
      ++ streamID ++ " stale: false".toList)
  | (nodeName, _) :: rest =>
    match mGet? (mGetStreams s.IngestStreams nodeName) streamID with
    | some stream =>
      if isStale stream.Timestamp c.ingestStreamTimeout now then
        .error ("catabalancer no node found for ingest stream: ".toList
          ++ streamID ++ " stale: true".toList)
      else
        .ok ("dtsc://".toList ++ nodeName)
    | none => mistLookup c s streamID now rest

/-- MistUtilLoadSource: refresh, then walk the registry for the ingest
stream; lat and lon are accepted and ignored, as in the source. -/
def MistUtilLoadSource (c : CataBalancer) (now : ℤ) (streamID lat lon : GoStr) :
    Except GoStr GoStr :=
  match RefreshNodes c now with
  | .error e => .error ("error refreshing nodes: ".toList ++ e)
  | .ok s => mistLookup c s streamID now c.Nodes

/-- Numeric value of a digit string. -/
def digitsVal (l : GoStr) : ℕ :=
  l.foldl (fun a c => 10 * a + (c.toNat - 48)) 0

/-- Decimal mantissa of strconv.ParseFloat: digits with an optional
single decimal point, at least one digit required; yields the digit
value together with the number of fraction digits. -/
def parseMantissa (m : GoStr) : Option (ℕ × ℕ) :=
  let cut := strCut '.' m
  let ip := cut.1
  let fp := cut.2.1
  if ip ++ fp = [] then none
  else if (ip ++ fp).all Char.isDigit then some (digitsVal (ip ++ fp), fp.length)
  else none

/-- Model of Go strconv.ParseFloat for 64-bit floats, over the exact
rationals: optional sign, decimal mantissa, optional decimal exponent.
The special spellings Inf and NaN and hexadecimal mantissas that the Go
function also accepts are outside what this development needs and are
rejected here; every input the claims touch is plain decimal or
malformed. -/
def goParseFloat (s : GoStr) : Option ℚ :=
  match s with
  | [] => none
  | _ =>
    let neg : Bool := s.head? = some '-'
    let s1 := if s.head? = some '-' ∨ s.head? = some '+' then s.tail else s
    let s2 := s1.map Char.toLower
    let cutE := strCut 'e' s2
    let mexp : Option (Bool × ℕ) :=
      if cutE.2.2 then
        let e := cutE.2.1
        let eneg : Bool := e.head? = some '-'
        let ed := if e.head? = some '-' ∨ e.head? = some '+' then e.tail else e
        if ed = [] then none
        else if ed.all Char.isDigit then some (eneg, digitsVal ed) else none
      else some (false, 0)
    match parseMantissa cutE.1, mexp with
    | some (num, fracLen), some (eneg, expVal) =>
      let sign : ℤ := if neg then -1 else 1
      if eneg then some (mkRat (sign * num) (10 ^ fracLen * 10 ^ expVal))
      else some (mkRat (sign * (num * 10 ^ expVal)) (10 ^ fracLen))
    | _, _ => none

/-- The error text of a failed strconv.ParseFloat. -/
def parseFloatErr (s : GoStr) : GoStr :=
  "strconv.ParseFloat: parsing ".toList
    ++ ('"' :: s ++ '"' :: ": invalid syntax".toList)

/-- The sources of nondeterminism in the selection engine, taken as
parameters: geo is the request-relative geo bucketing computed by the
function geoScores (see that definition), shuf models rand.Shuffle and
pick models rand.Intn over the final top list. -/
structure SelectionOracle where
  geo : ℚ → ℚ → ScoredNode → ℤ × ℚ
  shuf : List ScoredNode → List ScoredNode
  pick : ℕ

/-- Modelled from the spec: the function geoScores is code of this
repository missing from src (only its call site in selectTopNodes is
present). Per the spec it computes GeoScore and GeoDistance for every
candidate relative to the request latitude and longitude, with buckets
0, 1, 2 and exact thresholds left open; the embedding therefore maps an
abstract bucket function over the candidates, leaving all other fields
of each candidate unchanged. -/
def geoScores (o : SelectionOracle) (scoredNodes : List ScoredNode)
    (requestLatitude requestLongitude : ℚ) : List ScoredNode :=
  scoredNodes.map (fun node =>
    { node with
      GeoScore := (o.geo requestLatitude requestLongitude node).1,
      GeoDistance := (o.geo requestLatitude requestLongitude node).2 })

/-- truncateReturned: keep at most numNodes leading entries. -/
def truncateReturned (scoredNodes : List ScoredNode) (numNodes : ℕ) : List ScoredNode :=
  if scoredNodes.length < numNodes then scoredNodes
  else scoredNodes.take numNodes

/-- selectTopNodes: geo-score all candidates, then pick the first
non-empty tier: local nodes serving the stream and not overloaded, then
local nodes not overloaded, then everyone ranked by the summed score,
descending. -/
def selectTopNodes (o : SelectionOracle) (scoredNodes : List ScoredNode)
    (streamID : GoStr) (requestLatitude requestLongitude : ℚ)
    (numNodes : ℕ) : List ScoredNode :=
  let scored := geoScores o scoredNodes requestLatitude requestLongitude
  let localHasStreamNotOverloaded := scored.filterMap (fun node =>
    if node.GeoScore = 2 ∧ node.HasStream streamID ∧ node.GetLoadScore = 2 then
      some { node with StreamScore := 2 }
    else none)
  if localHasStreamNotOverloaded ≠ [] then
    truncateReturned (o.shuf localHasStreamNotOverloaded) numNodes
  else
    let localNotOverloaded := scored.filter
      (fun node => decide (node.GeoScore = 2 ∧ node.GetLoadScore = 2))
    if localNotOverloaded ≠ [] then
      truncateReturned (o.shuf localNotOverloaded) numNodes
    else
      let ranked := scored.map (fun node =>
        let n1 := { node with Score := node.Score + node.GeoScore + node.GetLoadScore }
        if node.HasStream streamID then
          { n1 with StreamScore := 2, Score := n1.Score + 2 }
        else n1)
      truncateReturned
        (ranked.mergeSort (fun a b => decide (b.Score ≤ a.Score))) numNodes

/-- SelectNode: error on the empty candidate list, otherwise a uniformly
random element of the top list from selectTopNodes. -/
def SelectNode (o : SelectionOracle) (nodes : List ScoredNode)
    (streamID : GoStr) (requestLatitude requestLongitude : ℚ) :
    Except GoStr Node :=
  if nodes = [] then .error ("no nodes to select from".toList)
  else
    let topNodes := selectTopNodes o nodes streamID requestLatitude requestLongitude 3
    if topNodes = [] then .error ("selectTopNodes returned no nodes".toList)
    else .ok (topNodes.getD (o.pick % topNodes.length) emptyScoredNode).Node

/-- The redirect stream-name prefix: the first redirect prefix when one
is configured, the literal video otherwise. -/
def pfxOf (redirectPrefixes : List GoStr) : GoStr :=
  match redirectPrefixes with
  | [] => "video".toList
  | p :: _ => p

/-- GetBestNode: refresh, parse lat and lon (empty means 0.0), build
scored candidates, select among them when there are any and fall back to
the local node name otherwise, and return the chosen name together with
the prefixed stream name. -/
def GetBestNode (c : CataBalancer) (o : SelectionOracle) (now : ℤ)
    (redirectPrefixes : List GoStr) (playbackID lat lon fallbackPfx : GoStr)
    (isStudioReq : Bool) : Except GoStr (GoStr × GoStr) :=
  match RefreshNodes c now with
  | .error e => .error ("error refreshing nodes: ".toList ++ e)
  | .ok s =>
    match (if lat = [] then some 0 else goParseFloat lat) with
    | none => .error (parseFloatErr lat)
    | some latf =>
      match (if lon = [] then some 0 else goParseFloat lon) with
      | none => .error (parseFloatErr lon)
      | some lonf =>
        let scoredNodes := createScoredNodes c s now
        let chosen : Except GoStr GoStr :=
          if scoredNodes ≠ [] then
            match SelectNode o scoredNodes playbackID latf lonf with
            | .error e => .error e
            | .ok node => .ok node.Name
          else .ok c.NodeName
        match chosen with
        | .error e => .error e
        | .ok nodeName => .ok (nodeName, pfxOf redirectPrefixes ++ '+' :: playbackID)

/-- C9: GetLoadScore is 0 as soon as one of the three usage percentages
is above 85 (in particular at exactly 86), 1 when none is above 85 but
one is above 50, and 2 when all three are at most 50. -/
theorem C9_GetLoadScore (n : ScoredNode) :
    (85 < n.NodeMetrics.CPUUsagePercentage ∨ 85 < n.NodeMetrics.BandwidthUsagePercentage
      ∨ 85 < n.NodeMetrics.RAMUsagePercentage → n.GetLoadScore = 0) ∧
    (n.NodeMetrics.CPUUsagePercentage ≤ 85 ∧ n.NodeMetrics.BandwidthUsagePercentage ≤ 85
      ∧ n.NodeMetrics.RAMUsagePercentage ≤ 85 →
      (50 < n.NodeMetrics.CPUUsagePercentage ∨ 50 < n.NodeMetrics.BandwidthUsagePercentage
        ∨ 50 < n.NodeMetrics.RAMUsagePercentage) → n.GetLoadScore = 1) ∧
    (n.NodeMetrics.CPUUsagePercentage ≤ 50 ∧ n.NodeMetrics.BandwidthUsagePercentage ≤ 50
      ∧ n.NodeMetrics.RAMUsagePercentage ≤ 50 → n.GetLoadScore = 2) ∧
    (n.NodeMetrics.CPUUsagePercentage = 86 ∨ n.NodeMetrics.BandwidthUsagePercentage = 86
      ∨ n.NodeMetrics.RAMUsagePercentage = 86 → n.GetLoadScore = 0) := by
  simp only [ScoredNode.GetLoadScore]
  refine ⟨?_, ?_, ?_, ?_⟩
  · intro h
    rw [if_pos h]
  · rintro ⟨h1, h2, h3⟩ h4
    rw [if_neg (by push_neg; exact ⟨h1, h2, h3⟩), if_pos h4]
  · rintro ⟨h1, h2, h3⟩
    rw [if_neg (by push_neg; exact ⟨by linarith, by linarith, by linarith⟩),
      if_neg (by push_neg; exact ⟨h1, h2, h3⟩)]
  · rintro (h | h | h)
    · rw [if_pos (Or.inl (by rw [h]; norm_num))]
    · rw [if_pos (Or.inr (Or.inl (by rw [h]; norm_num)))]
    · rw [if_pos (Or.inr (Or.inr (by rw [h]; norm_num)))]

/-- C9 witness: a node at 40 percent everywhere scores 2, and a node
with CPU at exactly 86 percent scores 0. -/
theorem C9_GetLoadScore_witness :
    ScoredNode.GetLoadScore
        ⟨0, 0, 0, 0, ⟨[], []⟩, [], [], ⟨40, 40, 40, 0, 0, 0, 0⟩⟩ = 2 ∧
    ScoredNode.GetLoadScore
        ⟨0, 0, 0, 0, ⟨[], []⟩, [], [], ⟨86, 20, 20, 0, 0, 0, 0⟩⟩ = 0 :=
  ⟨(C9_GetLoadScore _).2.2.1 (by decide),
   (C9_GetLoadScore _).2.2.2 (Or.inl (by decide))⟩

/-- The last member of the list that is eligible (media tag) and named
k, if any: because a later Go map assignment overwrites an earlier one,
this is the member whose node survives in the rebuilt registry. -/
def lastEligible? (k : GoStr) : List Member → Option Member
  | [] => none
  | m :: ms =>
    match lastEligible? k ms with
    | some m2 => some m2
    | none =>
      if m.Name = k ∧ tagsGet m.Tags ("node".toList) = ("media".toList)
      then some m else none

theorem mGet?_updAux (acc : AssocMap Node) (m : Member) (k : GoStr) :
    mGet? (updAux acc m) k =
      if m.Name = k ∧ tagsGet m.Tags ("node".toList) = ("media".toList)
      then some ⟨m.Name, tagsGet m.Tags ("dtsc".toList)⟩
      else mGet? acc k := by
  unfold updAux
  by_cases hm : tagsGet m.Tags ("node".toList) = ("media".toList)
  · rw [if_neg (not_not_intro hm)]
    by_cases hk : m.Name = k
    · subst hk
      rw [mGet?_mInsert_self, if_pos ⟨rfl, hm⟩]
    · rw [mGet?_mInsert_ne _ _ (fun h => hk h.symm), if_neg (fun h => hk h.1)]
  · rw [if_pos hm, if_neg (fun h => hm h.2)]

theorem foldl_updAux_get (k : GoStr) (members : List Member) :
    ∀ acc : AssocMap Node,
      mGet? (members.foldl updAux acc) k =
        match lastEligible? k members with
        | some m => some ⟨m.Name, tagsGet m.Tags ("dtsc".toList)⟩
        | none => mGet? acc k := by
  induction members with
  | nil => intro acc; rfl
  | cons m ms ih =>
    intro acc
    rw [List.foldl_cons, ih (updAux acc m), mGet?_updAux]
    cases hl : lastEligible? k ms with
    | some m2 => simp [lastEligible?, hl]
    | none =>
      simp only [lastEligible?, hl]
      by_cases hp : m.Name = k ∧ tagsGet m.Tags ("node".toList) = ("media".toList)
      · rw [if_pos hp, if_pos hp]
      · rw [if_neg hp, if_neg hp]

theorem lastEligible?_isSome (k : GoStr) (members : List Member) :
    (lastEligible? k members).isSome ↔
      ∃ m ∈ members, m.Name = k
        ∧ tagsGet m.Tags ("node".toList) = ("media".toList) := by
  induction members with
  | nil => simp [lastEligible?]
  | cons m ms ih =>
    simp only [lastEligible?]
    cases hl : lastEligible? k ms with
    | some m2 =>
      rw [hl] at ih
      obtain ⟨m2', hm2', hp2'⟩ := ih.mp (by simp)
      simp only [Option.isSome_some, true_iff]
      exact ⟨m2', List.mem_cons_of_mem _ hm2', hp2'⟩
    | none =>
      rw [hl] at ih
      by_cases hp : m.Name = k ∧ tagsGet m.Tags ("node".toList) = ("media".toList)
      · simp only [if_pos hp, Option.isSome_some, true_iff]
        exact ⟨m, List.mem_cons_self _ _, hp⟩
      · simp only [if_neg hp, Option.isSome_none, Bool.false_eq_true, false_iff]
        rintro ⟨m', hm', hp'⟩
        rcases List.mem_cons.mp hm' with h | h
        · exact hp (h ▸ hp')
        · have := ih.mpr ⟨m', h, hp'⟩
          simp at this

/-- C7: UpdateMembers rebuilds the registry from the member list alone:
under each name sits exactly the node of the last media-tagged member of
that name (its dtsc tag as address); a name with no media-tagged member
is absent; the previous registry contents have no influence at all. -/
theorem C7_UpdateMembers (c : CataBalancer) (members : List Member) (k : GoStr) :
    (mGet? (UpdateMembers c members).Nodes k =
      match lastEligible? k members with
      | some m => some ⟨m.Name, tagsGet m.Tags ("dtsc".toList)⟩
      | none => none) ∧
    ((mGet? (UpdateMembers c members).Nodes k).isSome ↔
      ∃ m ∈ members, m.Name = k
        ∧ tagsGet m.Tags ("node".toList) = ("media".toList)) ∧
    (∀ cPrev : CataBalancer,
      (UpdateMembers cPrev members).Nodes = (UpdateMembers c members).Nodes) := by
  have h1 : (UpdateMembers c members).Nodes = members.foldl updAux [] := rfl
  have h2 := foldl_updAux_get k members []
  refine ⟨?_, ?_, fun _ => rfl⟩
  · rw [h1, h2]
    cases lastEligible? k members <;> rfl
  · rw [h1, h2, ← lastEligible?_isSome k members]
    cases lastEligible? k members <;> simp [mGet?]

/-- A refresh aborts on the first row that fails to scan or to
unmarshal: whenever some row in the list is not a decoded event, the row
loop ends in an error. -/
theorem refreshLoop_error_of_bad (metricTimeout now : ℤ) (rows : List RowResult)
    (s : stats) (h : ∃ r ∈ rows, ∀ event, r ≠ RowResult.ok event) :
    ∃ e, refreshLoop metricTimeout now rows s = .error e := by
  induction rows generalizing s with
  | nil =>
    obtain ⟨r, hr, _⟩ := h
    exact absurd hr (List.not_mem_nil r)
  | cons row rows ih =>
    obtain ⟨r, hr, hbad⟩ := h
    cases row with
    | scanErr e => exact ⟨_, rfl⟩
    | unmarshalErr e => exact ⟨_, rfl⟩
    | ok event =>
      have hrr : r ∈ rows := by
        rcases List.mem_cons.mp hr with h1 | h1
        · exact absurd rfl (h1 ▸ hbad event)
        · exact h1
      simp only [refreshLoop]
      by_cases hst : isStale event.Metrics.Timestamp metricTimeout now = true
      · rw [if_pos hst]
        exact ih s ⟨r, hrr, hbad⟩
      · rw [if_neg hst]
        exact ih (applyEvent now event s) ⟨r, hrr, hbad⟩

/-- C6: a failed store query, or any single row that fails to scan or to
unmarshal, makes RefreshNodes return an error (no partial snapshot is
handed out, since the only success payload is the error-free one), and
both GetBestNode and MistUtilLoadSource surface a failed refresh as the
same wrapped error. -/
theorem C6_refresh_abort (c : CataBalancer) (now : ℤ) :
    (∀ db, c.NodeStatsDB = some db →
      ((∃ e, db.queryResult = .error e) ∨
        (∃ rows, db.queryResult = .ok rows ∧
          ∃ r ∈ rows, ∀ event, r ≠ RowResult.ok event)) →
      ∃ e, RefreshNodes c now = .error e) ∧
    (∀ e, RefreshNodes c now = .error e →
      (∀ o redirectPrefixes playbackID lat lon fallbackPfx isStudioReq,
        GetBestNode c o now redirectPrefixes playbackID lat lon fallbackPfx isStudioReq
          = .error ("error refreshing nodes: ".toList ++ e)) ∧
      (∀ streamID lat lon,
        MistUtilLoadSource c now streamID lat lon
          = .error ("error refreshing nodes: ".toList ++ e))) := by
  constructor
  · rintro db hdb (⟨e, he⟩ | ⟨rows, hrows, hbad⟩)
    · exact ⟨"failed to query node stats: ".toList ++ e,
        by simp only [RefreshNodes, hdb, he]⟩
    · obtain ⟨e, he⟩ := refreshLoop_error_of_bad c.metricTimeout now rows emptyStats hbad
      exact ⟨e, by simp only [RefreshNodes, hdb, hrows, he]⟩
  · intro e he
    constructor
    · intro o redirectPrefixes playbackID lat lon fallbackPfx isStudioReq
      simp only [GetBestNode, he]
    · intro streamID lat lon
      simp only [MistUtilLoadSource, he]

/-- C6 witness: a one-row store whose row fails to unmarshal aborts the
refresh of a concrete balancer, and the error surfaces wrapped. -/
theorem C6_refresh_abort_witness :
    ∃ e, RefreshNodes
      ⟨"node1".toList, [], 1000, 1000,
        some ⟨.ok [RowResult.unmarshalErr ("bad json".toList)], none⟩⟩ 0
      = .error e :=
  (C6_refresh_abort _ 0).1 _ rfl
    (Or.inr ⟨[RowResult.unmarshalErr ("bad json".toList)], rfl,
      ⟨RowResult.unmarshalErr ("bad json".toList),
        List.mem_cons_self _ _,
        fun event h => RowResult.noConfusion h⟩⟩)

/-- A balancer whose store handle is nil. -/
def dbNilBalancer : CataBalancer := ⟨"node1".toList, [], 1000, 1000, none⟩

/-- A fixed trivial selection oracle for concrete instances. -/
def oracle0 : SelectionOracle := ⟨fun _ _ _ => (0, 0), fun l => l, 0⟩

/-- C3 counterexample: with a malformed latitude, GetBestNode does not
fail fast before store I/O; here the store access fails (nil handle) and
that store error, not the parse error, is what comes back, so the store
is consulted before the latitude is validated. -/
theorem C3_counterexample :
    GetBestNode dbNilBalancer oracle0 0 [] ("x".toList)
        ("not-a-number".toList) [] [] false
      = .error ("error refreshing nodes: node stats DB was nil".toList) ∧
    GetBestNode dbNilBalancer oracle0 0 [] ("x".toList)
        ("not-a-number".toList) [] [] false
      ≠ .error (parseFloatErr ("not-a-number".toList)) := by
  constructor
  · rfl
  · decide

/-- C3 (amended): the refresh (store I/O) runs first; once it succeeds,
a non-empty latitude or longitude that does not parse makes GetBestNode
return the parse error and no node, and an empty coordinate string is
treated as 0.0 (the call behaves exactly as with the string 0), not as
an error. -/
theorem C3_parse_error (c : CataBalancer) (o : SelectionOracle) (now : ℤ)
    (redirectPrefixes : List GoStr) (playbackID lat lon fallbackPfx : GoStr)
    (isStudioReq : Bool) (s : stats) (hre : RefreshNodes c now = .ok s) :
    (lat ≠ [] → goParseFloat lat = none →
      GetBestNode c o now redirectPrefixes playbackID lat lon fallbackPfx isStudioReq
        = .error (parseFloatErr lat)) ∧
    ((lat = [] ∨ ∃ v, goParseFloat lat = some v) → lon ≠ [] →
      goParseFloat lon = none →
      GetBestNode c o now redirectPrefixes playbackID lat lon fallbackPfx isStudioReq
        = .error (parseFloatErr lon)) ∧
    (GetBestNode c o now redirectPrefixes playbackID [] [] fallbackPfx isStudioReq
      = GetBestNode c o now redirectPrefixes playbackID ("0".toList) ("0".toList)
          fallbackPfx isStudioReq) := by
  refine ⟨?_, ?_, ?_⟩
  · intro hne hpar
    simp only [GetBestNode, hre, if_neg hne, hpar]
  · intro hlat hne hpar
    simp only [GetBestNode, hre]
    rcases hlat with hl | ⟨v, hv⟩
    · rw [if_pos hl]
      simp only [if_neg hne, hpar]
    · by_cases hl : lat = []
      · rw [if_pos hl]
        simp only [if_neg hne, hpar]
      · rw [if_neg hl, hv]
        simp only [if_neg hne, hpar]
  · have h0 : goParseFloat ("0".toList) = some 0 := by decide
    have hne0 : ("0".toList : GoStr) ≠ [] := by decide
    simp only [GetBestNode, hre]
    rw [show (if ("0".toList : GoStr) = [] then some (0 : ℚ)
          else goParseFloat ("0".toList)) = some 0 by rw [if_neg hne0, h0]]
    simp only [if_true]

/-- A store whose query returns no rows. -/
def emptyDB : DBContents := ⟨.ok [], none⟩

/-- A balancer with an empty registry over an empty store. -/
def baseBalancer : CataBalancer := ⟨"node1".toList, [], 1000, 1000, some emptyDB⟩

/-- C3 witness: the amended statement evaluated at a concrete balancer
whose refresh succeeds and a malformed latitude. -/
theorem C3_parse_error_witness :
    GetBestNode baseBalancer oracle0 0 [] ("x".toList)
        ("not-a-number".toList) [] [] false
      = .error (parseFloatErr ("not-a-number".toList)) :=
  (C3_parse_error baseBalancer oracle0 0 [] ("x".toList)
      ("not-a-number".toList) [] [] false emptyStats rfl).1
    (by decide) (by decide)

/-- C5: when the refresh succeeds, both coordinates parse (or are
empty), and no scored candidates exist, GetBestNode succeeds with the
local node name and the prefixed stream name instead of failing. -/
theorem C5_self_fallback (c : CataBalancer) (o : SelectionOracle) (now : ℤ)
    (redirectPrefixes : List GoStr) (playbackID lat lon fallbackPfx : GoStr)
    (isStudioReq : Bool) (s : stats) (hre : RefreshNodes c now = .ok s)
    (hlat : lat = [] ∨ ∃ v, goParseFloat lat = some v)
    (hlon : lon = [] ∨ ∃ v, goParseFloat lon = some v)
    (hempty : createScoredNodes c s now = []) :
    GetBestNode c o now redirectPrefixes playbackID lat lon fallbackPfx isStudioReq
      = .ok (c.NodeName, pfxOf redirectPrefixes ++ '+' :: playbackID) := by
  simp only [GetBestNode, hre]
  have hlat2 : (if lat = [] then some (0 : ℚ) else goParseFloat lat).isSome := by
    rcases hlat with h | ⟨v, hv⟩
    · simp [h]
    · by_cases hl : lat = [] <;> simp [hl, hv]
  have hlon2 : (if lon = [] then some (0 : ℚ) else goParseFloat lon).isSome := by
    rcases hlon with h | ⟨v, hv⟩
    · simp [h]
    · by_cases hl : lon = [] <;> simp [hl, hv]
  obtain ⟨latf, hlatf⟩ := Option.isSome_iff_exists.mp hlat2
  obtain ⟨lonf, hlonf⟩ := Option.isSome_iff_exists.mp hlon2
  rw [hlatf, hlonf]
  simp only [hempty, ne_eq, not_true_eq_false, if_false, reduceIte]

/-- C5 witness: a concrete balancer with an empty registry chooses
itself. -/
theorem C5_self_fallback_witness :
    GetBestNode baseBalancer oracle0 0 [] ("abc".toList) [] [] [] false
      = .ok (baseBalancer.NodeName, pfxOf [] ++ '+' :: "abc".toList) :=
  C5_self_fallback baseBalancer oracle0 0 [] ("abc".toList) [] [] [] false
    emptyStats rfl (Or.inl rfl) (Or.inl rfl) rfl

/-- Lookup commutes with a value filter when the found value passes the
filter: entries in front of the first hit have other keys, so dropping
some of them never changes the first hit. -/
theorem mGet?_filter_of_pred {α : Type} (p : GoStr × α → Bool) (m : AssocMap α)
    (k : GoStr) (v : α) (h : mGet? m k = some v) (hp : p (k, v) = true) :
    mGet? (m.filter p) k = some v := by
  induction m with
  | nil => exact absurd h (by simp [mGet?])
  | cons q m ih =>
    by_cases hq : q.1 = k
    · have hv : q.2 = v := by
        simpa [mGet?, hq] using h
      have hqkv : q = (k, v) := Prod.ext hq hv
      rw [List.filter_cons, hqkv]
      rw [if_pos hp]
      simp [mGet?]
    · have h2 : mGet? m k = some v := by
        simpa [mGet?, hq] using h
      rw [List.filter_cons]
      by_cases hkeep : p q = true
      · rw [if_pos hkeep]
        simp only [mGet?, if_neg hq]
        exact ih h2
      · rw [if_neg hkeep]
        exact ih h2

/-- C8: the staleness cutoff is inclusive: an entry is stale exactly
when its timestamp is now minus the timeout or older. Consequently every
scored candidate has fresh metrics and only fresh stream entries, and
every registered node with fresh metrics is scored, its fresh streams
retained. -/
theorem C8_stale_boundary (c : CataBalancer) (s : stats) (now ts stale : ℤ) :
    (isStale ts stale now = true ↔ ts ≤ now - stale) ∧
    (∀ sn ∈ createScoredNodes c s now,
      isStale sn.NodeMetrics.Timestamp c.metricTimeout now = false) ∧
    (∀ sn ∈ createScoredNodes c s now, ∀ q ∈ sn.Streams,
      isStale q.2.Timestamp c.metricTimeout now = false) ∧
    (∀ k node met, (k, node) ∈ c.Nodes → mGet? s.NodeMetrics k = some met →
      isStale met.Timestamp c.metricTimeout now = false →
      ∃ sn ∈ createScoredNodes c s now, sn.Node = node ∧ sn.NodeMetrics = met ∧
        ∀ sid st, mGet? (mGetStreams s.Streams k) sid = some st →
          isStale st.Timestamp c.metricTimeout now = false →
          mGet? sn.Streams sid = some st) := by
  refine ⟨?_, ?_, ?_, ?_⟩
  · simp only [isStale, decide_eq_true_eq]
    omega
  · intro sn hsn
    obtain ⟨p, hp, hf⟩ := List.mem_filterMap.mp hsn
    cases hm : mGet? s.NodeMetrics p.1 with
    | none => simp [hm] at hf
    | some met =>
      simp only [hm] at hf
      by_cases hst : isStale met.Timestamp c.metricTimeout now = true
      · rw [if_pos hst] at hf
        exact absurd hf (by simp)
      · rw [if_neg hst] at hf
        have := Option.some_injective _ hf
        rw [← this]
        simpa using hst
  · intro sn hsn q hq
    obtain ⟨p, hp, hf⟩ := List.mem_filterMap.mp hsn
    cases hm : mGet? s.NodeMetrics p.1 with
    | none => simp [hm] at hf
    | some met =>
      simp only [hm] at hf
      by_cases hst : isStale met.Timestamp c.metricTimeout now = true
      · rw [if_pos hst] at hf
        exact absurd hf (by simp)
      · rw [if_neg hst] at hf
        have hsn2 := Option.some_injective _ hf
        rw [← hsn2] at hq
        simp only at hq
        have := (List.mem_filter.mp hq).2
        simpa using this
  · intro k node met hmem hm hst
    refine ⟨{ Score := 0, GeoScore := 0, StreamScore := 0, GeoDistance := 0,
              Node := node,
              Streams := (mGetStreams s.Streams k).filter
                (fun q => ! isStale q.2.Timestamp c.metricTimeout now),
              IngestStreams := [],
              NodeMetrics := met }, ?_, rfl, rfl, ?_⟩
    · refine List.mem_filterMap.mpr ⟨(k, node), hmem, ?_⟩
      simp only [hm]
      rw [if_neg (by simp [hst])]
    · intro sid st hsid hfresh
      exact mGet?_filter_of_pred _ _ sid st hsid (by simp [hfresh])

/-- A concrete registered node for witnesses. -/
def nodeA : Node := ⟨"A".toList, "dA".toList⟩

/-- Fresh metrics at instant 95 for witnesses. -/
def metA : NodeMetrics := ⟨10, 10, 10, 0, 0, 0, 95⟩

/-- A snapshot holding one fresh stream and fresh metrics for node A. -/
def statsW : stats :=
  ⟨[("A".toList, [("s1".toList, ⟨"s1".toList, "s1".toList, 95⟩)])], [],
    [("A".toList, metA)]⟩

/-- A balancer registering node A with timeouts of 50 at instant 100. -/
def balW : CataBalancer :=
  ⟨"self".toList, [("A".toList, nodeA)], 50, 50, some emptyDB⟩

/-- C8 witness: node A, with metrics aged 5 against a timeout of 50, is
scored and its fresh stream is retained. -/
theorem C8_stale_boundary_witness :
    ∃ sn ∈ createScoredNodes balW statsW 100, sn.Node = nodeA ∧ sn.NodeMetrics = metA ∧
      ∀ sid st, mGet? (mGetStreams statsW.Streams ("A".toList)) sid = some st →
        isStale st.Timestamp balW.metricTimeout 100 = false →
        mGet? sn.Streams sid = some st :=
  (C8_stale_boundary balW statsW 100 0 0).2.2.2 ("A".toList) nodeA metA
    (by decide) (by decide) (by decide)

/-- When every registered occurrence of the stream in the ingest
snapshot is stale and at least one exists, the registry walk ends in the
stale not-found error, whatever the iteration order. -/
theorem mistLookup_stale (c : CataBalancer) (s : stats) (streamID : GoStr)
    (now : ℤ) (L : List (GoStr × Node))
    (hex : ∃ p ∈ L, ∃ st, mGet? (mGetStreams s.IngestStreams p.1) streamID = some st)
    (hall : ∀ p ∈ L, ∀ st,
      mGet? (mGetStreams s.IngestStreams p.1) streamID = some st →
      isStale st.Timestamp c.ingestStreamTimeout now = true) :
    mistLookup c s streamID now L =
      .error ("catabalancer no node found for ingest stream: ".toList
        ++ streamID ++ " stale: true".toList) := by
  induction L with
  | nil =>
    obtain ⟨p, hp, _⟩ := hex
    exact absurd hp (List.not_mem_nil p)
  | cons q rest ih =>
    obtain ⟨n, nd⟩ := q
    cases hq : mGet? (mGetStreams s.IngestStreams n) streamID with
    | some st =>
      have hstale := hall (n, nd) (List.mem_cons_self _ _) st hq
      simp only [mistLookup, hq, hstale, if_true]
    | none =>
      simp only [mistLookup, hq]
      refine ih ?_ (fun p hp st hst => hall p (List.mem_cons_of_mem _ hp) st hst)
      obtain ⟨p, hp, st, hst⟩ := hex
      rcases List.mem_cons.mp hp with h | h
      · rw [h] at hst
        simp only at hst
        rw [hq] at hst
        exact absurd hst (by simp)
      · exact ⟨p, h, st, hst⟩

/-- When every registered occurrence of the stream in the ingest
snapshot is fresh and at least one exists, the registry walk succeeds
with the address dtsc:// followed by the name of a registered node that
holds the stream. -/
theorem mistLookup_fresh (c : CataBalancer) (s : stats) (streamID : GoStr)
    (now : ℤ) (L : List (GoStr × Node))
    (hex : ∃ p ∈ L, ∃ st, mGet? (mGetStreams s.IngestStreams p.1) streamID = some st)
    (hall : ∀ p ∈ L, ∀ st,
      mGet? (mGetStreams s.IngestStreams p.1) streamID = some st →
      isStale st.Timestamp c.ingestStreamTimeout now = false) :
    ∃ nodeName,
      (∃ node, (nodeName, node) ∈ L) ∧
      (∃ st, mGet? (mGetStreams s.IngestStreams nodeName) streamID = some st) ∧
      mistLookup c s streamID now L = .ok ("dtsc://".toList ++ nodeName) := by
  induction L with
  | nil =>
    obtain ⟨p, hp, _⟩ := hex
    exact absurd hp (List.not_mem_nil p)
  | cons q rest ih =>
    obtain ⟨n, nd⟩ := q
    cases hq : mGet? (mGetStreams s.IngestStreams n) streamID with
    | some st =>
      have hfresh := hall (n, nd) (List.mem_cons_self _ _) st hq
      refine ⟨n, ⟨nd, List.mem_cons_self _ _⟩, ⟨st, hq⟩, ?_⟩
      simp only [mistLookup, hq, hfresh]
      rw [if_neg (by simp)]
    | none =>
      have hex2 : ∃ p ∈ rest, ∃ st,
          mGet? (mGetStreams s.IngestStreams p.1) streamID = some st := by
        obtain ⟨p, hp, st, hst⟩ := hex
        rcases List.mem_cons.mp hp with h | h
        · rw [h] at hst
          simp only at hst
          rw [hq] at hst
          exact absurd hst (by simp)
        · exact ⟨p, h, st, hst⟩
      obtain ⟨nodeName, ⟨node, hmem⟩, hholds, heq⟩ :=
        ih hex2 (fun p hp st hst => hall p (List.mem_cons_of_mem _ hp) st hst)
      refine ⟨nodeName, ⟨node, List.mem_cons_of_mem _ hmem⟩, hholds, ?_⟩
      simp only [mistLookup, hq]
      exact heq

/-- C2: a stream whose registered ingest-snapshot occurrences are all
stale makes MistUtilLoadSource (through its registry walk) return the
stale not-found error, which differs from the plain not-found error, and
never a success; a stream held fresh by registered nodes yields the
address dtsc:// followed by the name of a registered holder. The walk
runs on the snapshot the refresh returned. -/
theorem C2_MistUtilLoadSource (c : CataBalancer) (s : stats)
    (streamID lat lon : GoStr) (now : ℤ) :
    ((∃ p ∈ c.Nodes, ∃ st,
        mGet? (mGetStreams s.IngestStreams p.1) streamID = some st) →
      (∀ p ∈ c.Nodes, ∀ st,
        mGet? (mGetStreams s.IngestStreams p.1) streamID = some st →
        isStale st.Timestamp c.ingestStreamTimeout now = true) →
      mistLookup c s streamID now c.Nodes =
        .error ("catabalancer no node found for ingest stream: ".toList
          ++ streamID ++ " stale: true".toList)) ∧
    (("catabalancer no node found for ingest stream: ".toList
        ++ streamID ++ " stale: true".toList : GoStr)
      ≠ ("catabalancer no node found for ingest stream: ".toList
        ++ streamID ++ " stale: false".toList)) ∧
    ((∃ p ∈ c.Nodes, ∃ st,
        mGet? (mGetStreams s.IngestStreams p.1) streamID = some st) →
      (∀ p ∈ c.Nodes, ∀ st,
        mGet? (mGetStreams s.IngestStreams p.1) streamID = some st →
        isStale st.Timestamp c.ingestStreamTimeout now = false) →
      ∃ nodeName,
        (∃ node, (nodeName, node) ∈ c.Nodes) ∧
        (∃ st, mGet? (mGetStreams s.IngestStreams nodeName) streamID = some st) ∧
        mistLookup c s streamID now c.Nodes = .ok ("dtsc://".toList ++ nodeName)) ∧
    (RefreshNodes c now = .ok s →
      MistUtilLoadSource c now streamID lat lon = mistLookup c s streamID now c.Nodes) := by
  refine ⟨?_, ?_, ?_, ?_⟩
  · exact mistLookup_stale c s streamID now c.Nodes
  · intro h
    have h2 := List.append_cancel_left h
    exact absurd h2 (by decide)
  · exact mistLookup_fresh c s streamID now c.Nodes
  · intro h
    simp only [MistUtilLoadSource, h]

/-- A snapshot in which node A holds stream s1 only with a stale
timestamp (age 100 against a timeout of 50). -/
def staleStatsW : stats :=
  ⟨[], [("A".toList, [("s1".toList, ⟨"s1".toList, "s1".toList, 0⟩)])],
    [("A".toList, metA)]⟩

/-- C2 witness: on the stale-only snapshot the registry walk of the
concrete balancer answers with the stale not-found error. -/
theorem C2_MistUtilLoadSource_witness :
    mistLookup balW staleStatsW ("s1".toList) 100 balW.Nodes =
      .error ("catabalancer no node found for ingest stream: ".toList
        ++ "s1".toList ++ " stale: true".toList) :=
  (C2_MistUtilLoadSource balW staleStatsW ("s1".toList) [] [] 100).1
    ⟨("A".toList, nodeA), by decide, ⟨"s1".toList, "s1".toList, 0⟩, by decide⟩
    (by
      intro p hp st hst
      have hp2 : p = ("A".toList, nodeA) := by simpa [balW] using hp
      subst hp2
      have hval : mGet?
          (mGetStreams staleStatsW.IngestStreams (("A".toList, nodeA)).1)
          ("s1".toList) = some ⟨"s1".toList, "s1".toList, 0⟩ := by decide
      rw [hval] at hst
      have hst2 := Option.some_injective _ hst
      rw [← hst2]
      decide)

theorem mem_truncateReturned {x : ScoredNode} {l : List ScoredNode} {n : ℕ}
    (h : x ∈ truncateReturned l n) : x ∈ l := by
  unfold truncateReturned at h
  split at h
  · exact h
  · exact List.take_subset n l h

theorem mem_geoScores {o : SelectionOracle} {nodes : List ScoredNode}
    {latf lonf : ℚ} {x : ScoredNode} (h : x ∈ geoScores o nodes latf lonf) :
    ∃ y ∈ nodes, x.Node = y.Node := by
  obtain ⟨y, hy, hxy⟩ := List.mem_map.mp h
  exact ⟨y, hy, by rw [← hxy]⟩

/-- Every node put forward by selectTopNodes comes from the candidate
list: each tier only filters, rescores, shuffles, sorts or truncates. -/
theorem selectTopNodes_mem (o : SelectionOracle)
    (hshuf : ∀ l, (o.shuf l).Perm l) (nodes : List ScoredNode)
    (streamID : GoStr) (latf lonf : ℚ) (numNodes : ℕ) :
    ∀ x ∈ selectTopNodes o nodes streamID latf lonf numNodes,
      ∃ y ∈ nodes, x.Node = y.Node := by
  intro x hx
  simp only [selectTopNodes] at hx
  split at hx
  · have hx2 := mem_truncateReturned hx
    have hx3 := ((hshuf _).mem_iff).mp hx2
    obtain ⟨z, hz, hzx⟩ := List.mem_filterMap.mp hx3
    split at hzx
    · have hxz := Option.some_injective _ hzx
      obtain ⟨y, hy, hzy⟩ := mem_geoScores hz
      refine ⟨y, hy, ?_⟩
      rw [← hxz]
      exact hzy
    · exact absurd hzx (by simp)
  · split at hx
    · have hx2 := mem_truncateReturned hx
      have hx3 := ((hshuf _).mem_iff).mp hx2
      have hx4 := (List.mem_filter.mp hx3).1
      exact mem_geoScores hx4
    · have hx2 := mem_truncateReturned hx
      have hx3 := List.mem_mergeSort.mp hx2
      obtain ⟨z, hz, hzx⟩ := List.mem_map.mp hx3
      obtain ⟨y, hy, hzy⟩ := mem_geoScores hz
      refine ⟨y, hy, ?_⟩
      rw [← hzx]
      split
      · exact hzy
      · exact hzy

/-- Every scored candidate carries a node value taken from the registry
entry it was built from. -/
theorem createScoredNodes_mem (c : CataBalancer) (s : stats) (now : ℤ) :
    ∀ sn ∈ createScoredNodes c s now, ∃ p ∈ c.Nodes, sn.Node = p.2 := by
  intro sn hsn
  obtain ⟨p, hp, hf⟩ := List.mem_filterMap.mp hsn
  refine ⟨p, hp, ?_⟩
  cases hm : mGet? s.NodeMetrics p.1 with
  | none => simp [hm] at hf
  | some met =>
    simp only [hm] at hf
    split at hf
    · exact absurd hf (by simp)
    · have := Option.some_injective _ hf
      rw [← this]

/-- C4: a node selected among the scored candidates is always a value of
the current registry, whatever snapshot the store produced (stale stats
naming unregistered nodes included); when registry keys carry the node
names, the selected name is a registered key. -/
theorem C4_SelectNode_registry (c : CataBalancer) (s : stats) (now : ℤ)
    (o : SelectionOracle) (streamID : GoStr) (latf lonf : ℚ) (node : Node)
    (hshuf : ∀ l, (o.shuf l).Perm l)
    (hwf : ∀ p ∈ c.Nodes, p.2.Name = p.1)
    (hsel : SelectNode o (createScoredNodes c s now) streamID latf lonf
      = .ok node) :
    (∃ p ∈ c.Nodes, node = p.2) ∧ node.Name ∈ c.Nodes.map Prod.fst := by
  simp only [SelectNode] at hsel
  by_cases h0 : createScoredNodes c s now = []
  · rw [if_pos h0] at hsel
    exact absurd hsel (by simp)
  · rw [if_neg h0] at hsel
    set t := selectTopNodes o (createScoredNodes c s now) streamID latf lonf 3
      with ht
    by_cases h1 : t = []
    · rw [if_pos h1] at hsel
      exact absurd hsel (by simp)
    · rw [if_neg h1] at hsel
      have hchosen : node = (t.getD (o.pick % t.length) emptyScoredNode).Node :=
        (Except.ok.inj hsel).symm
      have hlen : 0 < t.length := List.length_pos.mpr h1
      have hidx : o.pick % t.length < t.length := Nat.mod_lt _ hlen
      have hmem : t.getD (o.pick % t.length) emptyScoredNode ∈ t := by
        rw [List.getD_eq_getElem?_getD, List.getElem?_eq_getElem hidx]
        exact List.getElem_mem hidx
      obtain ⟨y, hy, hyn⟩ := selectTopNodes_mem o hshuf
        (createScoredNodes c s now) streamID latf lonf 3 _ (ht ▸ hmem)
      obtain ⟨p, hp, hpn⟩ := createScoredNodes_mem c s now y hy
      have hnp : node = p.2 := by rw [hchosen, hyn, hpn]
      refine ⟨⟨p, hp, hnp⟩, ?_⟩
      rw [hnp, hwf p hp]
      exact List.mem_map.mpr ⟨p, hp, rfl⟩

/-- C4 witness: on a concrete registry holding only node A, selection
with stream s1 yields node A, which is a registry value and key. -/
theorem C4_SelectNode_registry_witness :
    (∃ p ∈ balW.Nodes, nodeA = p.2) ∧ nodeA.Name ∈ balW.Nodes.map Prod.fst :=
  C4_SelectNode_registry balW statsW 100 ⟨fun _ _ _ => (2, 0), fun l => l, 0⟩
    ("s1".toList) 0 0 nodeA (fun l => List.Perm.refl l) (by decide) (by decide)

/-- The last element of the list whose key maps to k, if any: with
overwriting inserts it is the one whose entry survives. -/
def lastKeyed? (key : GoStr → GoStr) (k : GoStr) : List GoStr → Option GoStr
  | [] => none
  | x :: xs =>
    match lastKeyed? key k xs with
    | some y => some y
    | none => if key x = k then some x else none

theorem lastKeyed?_key {key : GoStr → GoStr} {k : GoStr} :
    ∀ {xs : List GoStr} {y : GoStr}, lastKeyed? key k xs = some y → key y = k := by
  intro xs
  induction xs with
  | nil => intro y h; exact absurd h (by simp [lastKeyed?])
  | cons x xs ih =>
    intro y h
    simp only [lastKeyed?] at h
    cases hl : lastKeyed? key k xs with
    | some z =>
      rw [hl] at h
      have hzy : z = y := Option.some_injective _ h
      exact hzy ▸ ih hl
    | none =>
      rw [hl] at h
      simp only at h
      by_cases hx : key x = k
      · rw [if_pos hx] at h
        rw [← Option.some_injective _ h]
        exact hx
      · rw [if_neg hx] at h
        exact absurd h (by simp)

theorem lastKeyed?_id_mem {k : GoStr} {xs : List GoStr} (h : k ∈ xs) :
    lastKeyed? (fun x => x) k xs = some k := by
  induction xs with
  | nil => exact absurd h (List.not_mem_nil k)
  | cons x xs ih =>
    simp only [lastKeyed?]
    cases hl : lastKeyed? (fun x => x) k xs with
    | some y =>
      have := lastKeyed?_key hl
      simp only at this
      rw [this]
    | none =>
      rcases List.mem_cons.mp h with hx | hx
      · rw [if_pos hx.symm, hx]
      · have := ih hx
        rw [hl] at this
        exact absurd this (by simp)

theorem foldl_insertKeyed_get (key : GoStr → GoStr) (now : ℤ) (k : GoStr)
    (xs : List GoStr) : ∀ m0 : AssocMap Stream,
    mGet? (xs.foldl (insertKeyed key now) m0) k =
      match lastKeyed? key k xs with
      | some x => some ⟨x, getPlaybackID x, now⟩
      | none => mGet? m0 k := by
  induction xs with
  | nil => intro m0; rfl
  | cons x xs ih =>
    intro m0
    rw [List.foldl_cons, ih]
    cases hl : lastKeyed? key k xs with
    | some y => simp [lastKeyed?, hl]
    | none =>
      simp only [lastKeyed?, hl]
      by_cases hx : key x = k
      · rw [if_pos hx]
        simp only [insertKeyed]
        rw [← hx, mGet?_mInsert_self]
      · rw [if_neg hx]
        simp only [insertKeyed]
        rw [mGet?_mInsert_ne _ _ (fun hk => hx hk.symm)]

/-- Processing further rows never disturbs the snapshot entries of a
node that none of those rows update with fresh data. -/
theorem refreshLoop_preserves (metricTimeout now : ℤ) (nid : GoStr)
    (post : List RowResult) : ∀ s0 s : stats,
    refreshLoop metricTimeout now post s0 = .ok s →
    (∀ ev2, RowResult.ok ev2 ∈ post →
      isStale ev2.Metrics.Timestamp metricTimeout now = false →
      ev2.NodeID ≠ nid) →
    mGet? s.Streams nid = mGet? s0.Streams nid ∧
    mGet? s.IngestStreams nid = mGet? s0.IngestStreams nid := by
  induction post with
  | nil =>
    intro s0 s h _
    have : s0 = s := by simpa [refreshLoop] using h
    rw [this]
    exact ⟨rfl, rfl⟩
  | cons row rows ih =>
    intro s0 s h hno
    cases row with
    | scanErr e => exact absurd h (by simp [refreshLoop])
    | unmarshalErr e => exact absurd h (by simp [refreshLoop])
    | ok ev2 =>
      simp only [refreshLoop] at h
      by_cases hst : isStale ev2.Metrics.Timestamp metricTimeout now = true
      · rw [if_pos hst] at h
        exact ih s0 s h
          (fun ev3 hm hf => hno ev3 (List.mem_cons_of_mem _ hm) hf)
      · rw [if_neg hst] at h
        have hne : ev2.NodeID ≠ nid :=
          hno ev2 (List.mem_cons_self _ _) (by simpa using hst)
        have hrest := ih (applyEvent now ev2 s0) s h
          (fun ev3 hm hf => hno ev3 (List.mem_cons_of_mem _ hm) hf)
        refine ⟨?_, ?_⟩
        · rw [hrest.1]
          exact mGet?_mInsert_ne _ _ (fun hk => hne hk.symm)
        · rw [hrest.2]
          exact mGet?_mInsert_ne _ _ (fun hk => hne hk.symm)

/-- A successful run of the row loop over a concatenation splits into
successful runs over the two parts. -/
theorem refreshLoop_append_ok (metricTimeout now : ℤ) (pre rest : List RowResult) :
    ∀ s0 s : stats,
    refreshLoop metricTimeout now (pre ++ rest) s0 = .ok s →
    ∃ s1, refreshLoop metricTimeout now pre s0 = .ok s1 ∧
      refreshLoop metricTimeout now rest s1 = .ok s := by
  induction pre with
  | nil => exact fun s0 s h => ⟨s0, rfl, h⟩
  | cons row rows ih =>
    intro s0 s h
    cases row with
    | scanErr e => exact absurd h (by simp [refreshLoop])
    | unmarshalErr e => exact absurd h (by simp [refreshLoop])
    | ok ev =>
      simp only [List.cons_append, refreshLoop] at h ⊢
      by_cases hst : isStale ev.Metrics.Timestamp metricTimeout now = true
      · rw [if_pos hst] at h ⊢
        exact ih s0 s h
      · rw [if_neg hst] at h ⊢
        exact ih (applyEvent now ev s0) s h

/-- C10: when a refresh succeeds, each ingest stream ID of a fresh node
update event (here: of the last fresh event for its node, the one whose
writes survive) is present in that node's playback snapshot under its
stripped playback ID and in its ingest snapshot under its full ID, and
both entries carry the refresh instant as timestamp, not anything from
the event, which transports no per-stream timestamps at all. -/
theorem C10_ingest_in_both (c : CataBalancer) (db : DBContents) (now : ℤ)
    (pre post : List RowResult) (event : NodeUpdateEvent) (sid : GoStr)
    (s : stats)
    (hdb : c.NodeStatsDB = some db)
    (hq : db.queryResult = .ok (pre ++ RowResult.ok event :: post))
    (hpost : ∀ ev2, RowResult.ok ev2 ∈ post →
      isStale ev2.Metrics.Timestamp c.metricTimeout now = false →
      ev2.NodeID ≠ event.NodeID)
    (hfresh : isStale event.Metrics.Timestamp c.metricTimeout now = false)
    (hsid : sid ∈ event.GetIngestStreams)
    (hlastpid : lastKeyed? getPlaybackID (getPlaybackID sid)
      event.GetIngestStreams = some sid)
    (hok : RefreshNodes c now = .ok s) :
    mGet? (mGetStreams s.Streams event.NodeID) (getPlaybackID sid)
      = some ⟨sid, getPlaybackID sid, now⟩ ∧
    mGet? (mGetStreams s.IngestStreams event.NodeID) sid
      = some ⟨sid, getPlaybackID sid, now⟩ := by
  simp only [RefreshNodes, hdb, hq] at hok
  have hloop : refreshLoop c.metricTimeout now (pre ++ RowResult.ok event :: post)
      emptyStats = .ok s := by
    cases hl : refreshLoop c.metricTimeout now (pre ++ RowResult.ok event :: post)
        emptyStats with
    | error e => rw [hl] at hok; exact absurd hok (by simp)
    | ok s2 =>
      rw [hl] at hok
      cases hie : db.iterErr with
      | some e => rw [hie] at hok; exact absurd hok (by simp)
      | none =>
        rw [hie] at hok
        have hs2 : s2 = s := by simpa using hok
        rw [hs2]
  obtain ⟨s1, hpre, hrest⟩ :=
    refreshLoop_append_ok c.metricTimeout now pre _ emptyStats s hloop
  simp only [refreshLoop, hfresh] at hrest
  rw [if_neg (by simp [hfresh])] at hrest
  obtain ⟨hpres, hpresi⟩ := refreshLoop_preserves c.metricTimeout now
    event.NodeID post (applyEvent now event s1) s hrest hpost
  constructor
  · rw [mGetStreams, hpres]
    simp only [applyEvent]
    rw [mGet?_mInsert_self]
    simp only [Option.getD_some]
    rw [foldl_insertKeyed_get, hlastpid]
  · rw [mGetStreams, hpresi]
    simp only [applyEvent]
    rw [mGet?_mInsert_self]
    simp only [Option.getD_some]
    rw [foldl_insertKeyed_get, lastKeyed?_id_mem hsid]

/-- The concrete node update event for the C10 witness: node A, fresh
metrics at instant 95, one ingest stream s1 and no playback streams. -/
def eventW : NodeUpdateEvent :=
  ⟨[], "A".toList, ⟨0, 0, 0, 0, 0, 0, 95⟩, "~s1".toList⟩

/-- A balancer whose store holds exactly one row carrying eventW. -/
def balW2 : CataBalancer :=
  ⟨"self".toList, [("A".toList, nodeA)], 50, 50,
    some ⟨.ok [RowResult.ok eventW], none⟩⟩

/-- C10 witness: after a concrete refresh at instant 100, stream s1 sits
in both snapshots of node A, stamped 100. -/
theorem C10_ingest_in_both_witness :
    mGet? (mGetStreams
        (⟨[("A".toList, [("s1".toList, ⟨"s1".toList, "s1".toList, 100⟩)])],
          [("A".toList, [("s1".toList, ⟨"s1".toList, "s1".toList, 100⟩)])],
          [("A".toList, ⟨0, 0, 0, 0, 0, 0, 95⟩)]⟩ : stats).Streams
        ("A".toList)) (getPlaybackID ("s1".toList))
      = some ⟨"s1".toList, getPlaybackID ("s1".toList), 100⟩ ∧
    mGet? (mGetStreams
        (⟨[("A".toList, [("s1".toList, ⟨"s1".toList, "s1".toList, 100⟩)])],
          [("A".toList, [("s1".toList, ⟨"s1".toList, "s1".toList, 100⟩)])],
          [("A".toList, ⟨0, 0, 0, 0, 0, 0, 95⟩)]⟩ : stats).IngestStreams
        ("A".toList)) ("s1".toList)
      = some ⟨"s1".toList, getPlaybackID ("s1".toList), 100⟩ :=
  C10_ingest_in_both balW2 ⟨.ok [RowResult.ok eventW], none⟩ 100
    [] [] eventW ("s1".toList) _ rfl rfl
    (fun ev2 hm _ => absurd hm (List.not_mem_nil _))
    (by decide) (by decide) (by decide) (by decide)

end Catabalancer
